import Mathlib

/-
Verification of the IBIT tracker daily-update script (update.py).

Modeling conventions:
* Text is a `List Char`; Python string operations (find, slice, strip, split,
  join, replace) are given exact executable counterparts below.
* Python numbers are modeled as exact rationals.  Every numeric value appearing
  in the claims (prices, holdings, flows) is a dyadic rational small enough that
  binary floating point evaluates the involved sums/products exactly, so the
  rational model agrees with the float semantics on all inputs used here.
* The ambient inputs of the program (today's date string, the JSON-decoded
  price, the outcome of the generative-text call) are explicit parameters.
* A Python exception escaping a function is modeled by an explicit `crash`
  result; returning `None, None` is the `priceUnavailable` result.
-/

abbrev Text := List Char

/-- The characters Python's `str.strip()` removes. -/
def pyIsWs (c : Char) : Bool :=
  c = ' ' || c = '\t' || c = '\n' || c = '\r' || c = '\x0b' || c = '\x0c'

/-- Leading-whitespace removal, as in `str.lstrip()`. -/
def lstripWs (s : Text) : Text := s.dropWhile pyIsWs

/-- Trailing-whitespace removal, as in `str.rstrip()`. -/
def rstripWs (s : Text) : Text := (s.reverse.dropWhile pyIsWs).reverse

/-- Python `str.strip()`. -/
def pyStrip (s : Text) : Text := rstripWs (lstripWs s)

/-- Python `str.rstrip(',')`. -/
def rstripComma (s : Text) : Text := (s.reverse.dropWhile (fun c => c = ',')).reverse

/-- One step of splitting on a newline character. -/
def nlStep (c : Char) (acc : List Text) : List Text :=
  if c = '\n' then [] :: acc else (c :: acc.headD []) :: acc.tail

/-- Python `str.split('\n')`. -/
def splitNl (s : Text) : List Text := s.foldr nlStep [[]]

/-- Python `'\n'.join`. -/
def joinNl : List Text → Text
  | [] => []
  | [x] => x
  | x :: y :: r => x ++ '\n' :: joinNl (y :: r)

/-- Index of the first occurrence of `pat` as a contiguous substring of `s`. -/
def findSub (pat : Text) : Text → Option Nat
  | [] => if pat.isEmpty then some 0 else none
  | c :: cs => if pat.isPrefixOf (c :: cs) then some 0 else (findSub pat cs).map (· + 1)

/-- Python `str.find`: first index of `pat`, or -1. -/
def pyFind (pat s : Text) : Int :=
  match findSub pat s with
  | none => -1
  | some i => i

/-- Python `str.find(pat, start)`: absolute index of the first occurrence at or
after `start`, or -1. -/
def pyFindFrom (pat s : Text) (start : Nat) : Int :=
  match findSub pat (s.drop start) with
  | none => -1
  | some i => ((start + i : Nat) : Int)

/-- Python slice `s[a:b]` for a nonnegative `a` and a possibly negative `b`. -/
def pySliceI (s : Text) (a : Nat) (b : Int) : Text :=
  let bN : Nat := (if b < 0 then (s.length : Int) + b else b).toNat
  (s.take bN).drop a

/-- Scanning worker for `replaceAll`; the fuel argument only forces
termination and never runs out when it starts at the text length. -/
def replaceAllAux (pat rep : Text) : Nat → Text → Text
  | _, [] => []
  | 0, s => s
  | fuel + 1, c :: cs =>
    if pat.isPrefixOf (c :: cs) ∧ pat ≠ [] then
      rep ++ replaceAllAux pat rep fuel (cs.drop (pat.length - 1))
    else
      c :: replaceAllAux pat rep fuel cs

/-- Python `str.replace(pat, rep)`: leftmost nonoverlapping replacement. -/
def replaceAll (pat rep s : Text) : Text := replaceAllAux pat rep s.length s

/-- Lexicographic comparison of strings (Python `<` on ASCII strings). -/
def strLtB : Text → Text → Bool
  | [], [] => false
  | [], _ :: _ => true
  | _ :: _, [] => false
  | a :: as, b :: bs => if a < b then true else if a = b then strLtB as bs else false

/-- All ordered pairs of the list satisfy `f`. -/
def pairwiseB (f : Text → Text → Bool) : List Text → Bool
  | [] => true
  | x :: xs => xs.all (f x) && pairwiseB f xs

/- ### The program constants (update.py lines 8, 36, 133-134, 152-157, 161-162, 172, 175) -/

def dataStartTag : Text := "// <NEW_FUND_DATA_INJECTION>".toList

def dataEndTag : Text := "// </NEW_FUND_DATA_INJECTION>".toList

def aiStartTag : Text :=
  "<p id=\"aiContent\" class=\"text-lg text-gray-700 leading-relaxed mb-8\">".toList

def aiEndTag : Text := "</p>".toList

def datePlaceholder : Text := "DATE_PLACEHOLDER".toList

def braceChar : Char := '\x7b'

/-- The fields of the new entry, already formatted the way the f-string on
line 152 formats them (the numeric fields are Python float/int reprs). -/
structure EntryStrings where
  date : Text
  price : Text
  holdings : Text
  btcFlow : Text
  aum : Text
  usdFlow : Text

def serialDatePre : Text := "\x7b date: ".toList

/-- Line 152: the literal entry written for the new record. -/
def serializeEntry (e : EntryStrings) : Text :=
  serialDatePre ++ '"' :: (e.date ++ '"' :: (", price: ".toList ++ e.price
    ++ ", holdings: ".toList ++ e.holdings ++ ", btcFlow: ".toList ++ e.btcFlow
    ++ ", aum: ".toList ++ e.aum ++ ", usdFlow: ".toList ++ e.usdFlow ++ " \x7d".toList))

/-- Line 148-149: strip the final line and its trailing commas when it starts
with a brace. -/
def entryLineFix (l : Text) : Text :=
  if (pyStrip l).head? = some braceChar then rstripComma (pyStrip l) else l

/-- Replace the last element of the line list by its fixed form. -/
def fixLastLine : List Text → List Text
  | [] => []
  | [x] => [entryLineFix x]
  | x :: y :: r => x :: fixLastLine (y :: r)

def commaSep : Text := ",\n            ".toList

def trailingWs : Text := "\n        ".toList

def regionHead : Text := "\n        const fundData = [\n".toList

def closeBr : Text := "];".toList

def pad16 : Text := "\n                ".toList

def pad12 : Text := "\n            ".toList

/-- Lines 144-157: the text placed between the two data markers by the update:
parse the old block into lines, fix the last line, append the serialized new
entry, and wrap in the template of line 157. -/
def newDataRegion (R : Text) (e : EntryStrings) : Text :=
  let ls := splitNl (pyStrip R)
  let updated := joinNl (fixLastLine ls) ++ commaSep ++ serializeEntry e ++ trailingWs
  regionHead ++ pyStrip updated ++ closeBr ++ trailingWs

/-- Lines 125-181, `update_html_file` as a pure text transform: `none` models
`return False` (no file write happens); `some out` models writing `out`. -/
def updateHtmlFile (content : Text) (e : EntryStrings) (summary : Text) : Option Text :=
  let startIndex := pyFind dataStartTag content
  let endIndex := pyFind dataEndTag content
  if startIndex = -1 ∨ endIndex = -1 then none
  else
    let si := startIndex.toNat
    let ei := endIndex.toNat
    let existingBlock := (content.take ei).drop (si + dataStartTag.length)
    let content2 := content.take si ++ dataStartTag ++ newDataRegion existingBlock e
        ++ dataEndTag ++ content.drop (ei + dataEndTag.length)
    let aiStart : Int := pyFind aiStartTag content2 + aiStartTag.length
    let aiEnd : Int := pyFindFrom aiEndTag content2 aiStart.toNat
    if aiStart = -1 ∨ aiEnd = -1 then none
    else
      let content3 := content2.take aiStart.toNat ++ pad16 ++ summary ++ pad12
          ++ content2.drop aiEnd.toNat
      some (replaceAll datePlaceholder e.date content3)

/-- The persisted file after the update step: the code writes only on success. -/
def writeBack (content : Text) (e : EntryStrings) (summary : Text) : Text :=
  (updateHtmlFile content e summary).getD content

/- ### Parsing a data region into entries (the program's own notion, lines 145-149, 55) -/

/-- A line is an entry when its stripped text starts with a brace; its entry
text is the stripped line with the trailing list separator removed. -/
def entryOf (l : Text) : Option Text :=
  let t := pyStrip l
  if t.head? = some braceChar then some (rstripComma t) else none

/-- The literal entries of a data region (newline-separated, block stripped
first, as the program does). -/
def entriesOf (s : Text) : List Text :=
  (splitNl (pyStrip s)).filterMap entryOf

/-- The quoted date of an entry: the text between the first two quote marks. -/
def dateOf (l : Text) : Option Text :=
  (findSub ['"'] l).bind (fun i =>
    (findSub ['"'] (l.drop (i + 1))).map (fun j => (l.drop (i + 1)).take j))

def datesOf (s : Text) : List Text := (entriesOf s).filterMap dateOf

/- ### The metrics fetcher (lines 10-82) -/

def isDigitC (c : Char) : Bool := '0' ≤ c && c ≤ '9'

def digitsVal (s : Text) : Nat := s.foldl (fun a c => 10 * a + (c.toNat - 48)) 0

/-- Python `float()` on the decimal literals this program reads and writes:
optional sign, digits, optional fractional part.  (Exponent and inf/nan forms
never occur in the persisted format and are out of the model: they map to
parse failure.) -/
def parseUnsigned (s : Text) : Option ℚ :=
  let ip := s.takeWhile isDigitC
  let rest := s.dropWhile isDigitC
  match rest with
  | [] => if ip = [] then none else some (digitsVal ip)
  | '.' :: fp =>
    if fp.all isDigitC ∧ (ip ≠ [] ∨ fp ≠ []) then
      some ((digitsVal ip : ℚ) + (digitsVal fp : ℚ) / (10 : ℚ) ^ fp.length)
    else none
  | _ => none

def parsePyFloat (s : Text) : Option ℚ :=
  match s with
  | '-' :: t => (parseUnsigned t).map (fun q => -q)
  | '+' :: t => parseUnsigned t
  | t => parseUnsigned t

/-- Outcome of the previous-holdings lookup, lines 43-66.  `ok`: a value was
extracted.  `exc`: an exception was raised inside the try-block, so the
`except` clause assigns the hardcoded fallback.  `nullH`: no exception was
raised but no value was assigned either, so `last_holdings` is still `None`
when line 69 subtracts it. -/
inductive HoldOutcome where
  | ok (h : ℚ)
  | exc
  | nullH
deriving DecidableEq

def holdingsKey : Text := "holdings:".toList

/-- Outcome of locating the raw holdings substring (lines 43-63) before the
float conversion: the stripped slice, an exception (here only the IndexError
of the `[-2]` access), or nothing assigned. -/
inductive SegOutcome where
  | seg (s : Text)
  | exc
  | nullH
deriving DecidableEq

/-- Lines 43-63: locate the holdings substring of the second-to-last line of
the data block. -/
def extractSegment (content : Text) : SegOutcome :=
  let ds := pyFind dataStartTag content
  let de := pyFind dataEndTag content
  if ds ≠ -1 ∧ de ≠ -1 then
    let dataBlock := (content.take de.toNat).drop ds.toNat
    let ls := splitNl (pyStrip dataBlock)
    if 2 ≤ ls.length then
      let lastLine := ls.getD (ls.length - 2) []
      if (findSub holdingsKey lastLine).isSome then
        let startH : Nat := (pyFind holdingsKey lastLine).toNat + holdingsKey.length
        let endH : Int := pyFindFrom [','] lastLine startH
        .seg (pyStrip (pySliceI lastLine startH endH))
      else .nullH
    else .exc
  else .nullH

/-- Lines 43-66: scan the persisted file for the previous holdings value. -/
def extractLastHoldings (content : Text) : HoldOutcome :=
  match extractSegment content with
  | .seg s =>
    match parsePyFloat s with
    | some q => .ok q
    | none => .exc
  | .exc => .exc
  | .nullH => .nullH

structure MetricRecord where
  date : Text
  price : ℚ
  holdings : ℚ
  btcFlow : ℚ
  aum : ℚ
  usdFlow : ℚ
deriving DecidableEq

/-- Result of `fetch_live_data`: `priceUnavailable` is the `return None, None`
path, `crash` is an uncaught exception escaping the function, `ok` is a
complete record. -/
inductive FetchResult where
  | priceUnavailable
  | crash
  | ok (r : MetricRecord)
deriving DecidableEq

/-- Line 36: the operator-maintained configured holdings. -/
def latestIbitHoldings : ℚ := 306050

/-- Lines 73-80: the new record derived from price and previous holdings. -/
def mkNewEntry (todayStr : Text) (price lastHoldings : ℚ) : MetricRecord :=
  { date := todayStr
    price := price
    holdings := latestIbitHoldings
    btcFlow := latestIbitHoldings - lastHoldings
    aum := latestIbitHoldings * price
    usdFlow := (latestIbitHoldings - lastHoldings) * price }

/-- Lines 10-82.  `priceResp` is the JSON-decoded `bitcoin.usd` field (absent
fields decode to `none`); `todayStr` is the formatted current date. -/
def fetch_live_data (todayStr : Text) (priceResp : Option ℚ) (content : Text) : FetchResult :=
  match priceResp with
  | none => .priceUnavailable
  | some p =>
    if p = 0 then .priceUnavailable
    else
      match extractLastHoldings content with
      | .ok h => .ok (mkNewEntry todayStr p h)
      | .exc => .ok (mkNewEntry todayStr p (latestIbitHoldings - 500))
      | .nullH => .crash

/-- The previous-holdings value the arithmetic of lines 69-71 actually uses,
when the function does not crash. -/
def usedPrevHoldings (content : Text) : Option ℚ :=
  match extractLastHoldings content with
  | .ok h => some h
  | .exc => some (latestIbitHoldings - 500)
  | .nullH => none

/- ### The narrative generator (lines 85-122) -/

/-- Ambient outcome of the generative-text call: the environment variable may
be unset (line 91), the call may raise `APIError` (line 117) or any other
exception (line 120), or return text. -/
inductive GenOutcome where
  | missingKey
  | apiError
  | unexpectedError
  | success (t : Text)

def missingKeyMsg : Text := "AI content generation failed: Missing API Key.".toList

def apiErrorMsg : Text := "AI content generation failed due to API connection error.".toList

def unexpectedErrorMsg : Text := "AI content generation failed due to an unexpected error.".toList

/-- Lines 85-122: `generate_ai_content` never raises; on success the returned
text has its newlines replaced by spaces (line 116). -/
def generate_ai_content : GenOutcome → Text
  | .missingKey => missingKeyMsg
  | .apiError => apiErrorMsg
  | .unexpectedError => unexpectedErrorMsg
  | .success t => replaceAll ['\n'] [' '] t

/- ### The __main__ block (lines 184-196) -/

def entryStringsOf (fmt : ℚ → Text) (r : MetricRecord) : EntryStrings :=
  { date := r.date, price := fmt r.price, holdings := fmt r.holdings,
    btcFlow := fmt r.btcFlow, aum := fmt r.aum, usdFlow := fmt r.usdFlow }

/-- Lines 184-196: the whole run, returning (exit status, persisted file).
`fmt` renders a number the way the f-string on line 152 does.  A `crash`
(uncaught exception) terminates the interpreter with status 1 before any
write; `exit(1)` is the explicit abort of line 189.  Failures of
`update_html_file` only print, so the status stays 0 and the file is kept. -/
def mainRun (todayStr : Text) (priceResp : Option ℚ) (gen : GenOutcome)
    (fmt : ℚ → Text) (state : Text) : Nat × Text :=
  match fetch_live_data todayStr priceResp state with
  | .priceUnavailable => (1, state)
  | .crash => (1, state)
  | .ok r =>
    match updateHtmlFile state (entryStringsOf fmt r) (generate_ai_content gen) with
    | none => (0, state)
    | some out => (0, out)

/- ### Concrete states and inputs used by the scenarios and counterexamples -/

/-- The string "2026-10-12", the date of the run in all concrete scenarios. -/
def dStr : Text := "2026-10-12".toList

/-- A well-formed persisted document: one data entry with holdings 305613.5,
a narrative paragraph, and a last-updated placeholder. -/
def sampleState : Text :=
  ("<html><script>\n        // <NEW_FUND_DATA_INJECTION>\n        const fundData = [\n"
    ++ "            \x7b date: \"2026-10-11\", price: 61000, holdings: 305613.5, btcFlow: 100.0, "
    ++ "aum: 18642423500.0, usdFlow: 6100000.0 \x7d,\n        ];\n"
    ++ "        // </NEW_FUND_DATA_INJECTION>\n    </script>\n    "
    ++ "<p id=\"aiContent\" class=\"text-lg text-gray-700 leading-relaxed mb-8\">\n"
    ++ "                old narrative\n            </p>\n"
    ++ "    Last updated: DATE_PLACEHOLDER\n</html>").toList

/-- A persisted document whose data markers are present but whose array holds
no entry: the second-to-last block line is `const fundData = [`. -/
def emptyArrayState : Text :=
  ("// <NEW_FUND_DATA_INJECTION>\nconst fundData = [\n];\n// </NEW_FUND_DATA_INJECTION>").toList

/-- A persisted document whose last entry carries an unparsable holdings
value, so `float()` raises and the except-clause fallback applies. -/
def badParseState : Text :=
  ("// <NEW_FUND_DATA_INJECTION>\nconst fundData = [\n"
    ++ "\x7b date: \"2026-10-11\", holdings: abc, btcFlow: 1 \x7d,\n];\n"
    ++ "// </NEW_FUND_DATA_INJECTION>").toList

/-- A document with both data markers, no narrative opening tag, and a stray
closing `</p>` far enough into the text. -/
def strayCloseState : Text :=
  ("// <NEW_FUND_DATA_INJECTION>\nx\n// </NEW_FUND_DATA_INJECTION>"
    ++ "  padding padding padding </p> end").toList

/-- Concrete formatted fields for a new entry (the f-string output of the
scenario record). -/
def sampleEntry : EntryStrings :=
  ⟨"2026-10-12".toList, "65000".toList, "306050.0".toList, "436.5".toList,
    "19893250000.0".toList, "28372500.0".toList⟩

def sampleSummary : Text := "Net inflows continued today.".toList

/- ### Auxiliary definitions used by the lemmas below -/

def constLine : Text := "const fundData = [".toList

def indent12 : Text := "            ".toList

def lastD : List Text → Text
  | [] => []
  | [x] => x
  | _ :: y :: r => lastD (y :: r)

/-- A concrete prior data region in the post-update layout. -/
def sampleRegion : Text :=
  ("\n        const fundData = [\n            \x7b date: \"2026-10-11\", price: 61000, "
    ++ "holdings: 305613.5, btcFlow: 100.0, aum: 18642423500.0, usdFlow: 6100000.0 \x7d,\n"
    ++ "        ];\n        ").toList

/-- A concrete region holding one entry dated 2026-10-12. -/
def dupRegion : Text :=
  ("\n        const fundData = [\n            \x7b date: \"2026-10-12\", price: 61000, "
    ++ "holdings: 305613.5, btcFlow: 100.0, aum: 1.0, usdFlow: 2.0 \x7d,\n        ];\n        ").toList

/-- A new entry carrying the same date 2026-10-12 (a second run on the same
day). -/
def dupEntry : EntryStrings :=
  ⟨"2026-10-12".toList, "65000".toList, "306050.0".toList, "436.5".toList,
    "1.0".toList, "2.0".toList⟩

/-- No match of `p` that starts inside `X` crosses into the following text. -/
def noCrossB (p X Y : Text) : Bool :=
  (List.range X.length).all (fun i =>
    !(p.isPrefixOf ((X ++ Y).drop i)) || decide (i + p.length ≤ X.length))

def noCrossChainB (p : Text) : List Text → Bool
  | [] => true
  | X :: rest => noCrossB p X rest.flatten && noCrossChainB p rest

/- Concrete instantiation pieces for the frame theorem. -/

def frameA : Text := "<html>".toList

def frameR : Text := ("\nconst fundData = [\n];\n").toList

def frameB1 : Text := " <div> ".toList

def frameN : Text := " old narrative ".toList

def frameB2 : Text := " DATE_PLACEHOLDER </html>".toList

def frameSummary : Text := "Fresh summary.".toList

/- ### Evaluation helpers for the concrete scenarios -/

set_option maxRecDepth 20000 in
theorem extract_sample_raw :
    extractLastHoldings sampleState = .ok ((305613 : ℚ) + 5 / 10 ^ 1) := rfl

set_option maxRecDepth 20000 in
theorem fetch_sample_raw :
    fetch_live_data dStr (some 65000) sampleState =
      .ok (mkNewEntry dStr 65000 ((305613 : ℚ) + 5 / 10 ^ 1)) := rfl

theorem fetch_sample :
    fetch_live_data dStr (some 65000) sampleState =
      .ok ⟨dStr, 65000, 306050, 436.5, 19893250000, 28372500⟩ := by
  rw [fetch_sample_raw]
  simp only [FetchResult.ok.injEq, MetricRecord.mk.injEq, mkNewEntry, latestIbitHoldings]
  norm_num

/-- Unfolding of the fetcher at a present price. -/
theorem fetch_eq_some (d : Text) (p : ℚ) (st : Text) :
    fetch_live_data d (some p) st =
      (if p = 0 then .priceUnavailable
       else
        match extractLastHoldings st with
        | .ok h => .ok (mkNewEntry d p h)
        | .exc => .ok (mkNewEntry d p (latestIbitHoldings - 500))
        | .nullH => .crash) := rfl

/-- Unfolding of the fetcher at an absent price. -/
theorem fetch_eq_none (d : Text) (st : Text) :
    fetch_live_data d none st = .priceUnavailable := rfl

set_option maxRecDepth 20000 in
theorem extract_emptyArray : extractLastHoldings emptyArrayState = .nullH := rfl

set_option maxRecDepth 20000 in
theorem extract_badParse : extractLastHoldings badParseState = .exc := rfl

theorem fetch_badParse :
    fetch_live_data dStr (some 65000) badParseState =
      .ok ⟨dStr, 65000, 306050, 500, 19893250000, 32500000⟩ := by
  rw [fetch_eq_some, if_neg (by norm_num : (65000 : ℚ) ≠ 0), extract_badParse]
  simp only [FetchResult.ok.injEq, MetricRecord.mk.injEq, mkNewEntry, latestIbitHoldings]
  norm_num

set_option maxRecDepth 20000 in
theorem fetch_negative_raw :
    fetch_live_data dStr (some (-1)) sampleState =
      .ok (mkNewEntry dStr (-1) ((305613 : ℚ) + 5 / 10 ^ 1)) := rfl

/- ### Claim C1 -/

/-- C1: for every record produced by fetch, the derived fields satisfy
btcFlow = holdings(new) - holdings(previous), aum = holdings * price and
usdFlow = btcFlow * price, where holdings(previous) is the value the lookup
of lines 43-66 supplies; and in the concrete scenario (one prior entry with
holdings 305613.5, price 65000, configured holdings 306050.0) the new entry
is btcFlow 436.5, aum 19893250000, usdFlow 28372500. -/
theorem c1_fetch_derived_fields (d : Text) (pr : Option ℚ) (st : Text) (r : MetricRecord)
    (h : fetch_live_data d pr st = .ok r) :
    ((∃ prev, usedPrevHoldings st = some prev ∧ r.btcFlow = r.holdings - prev) ∧
      r.aum = r.holdings * r.price ∧ r.usdFlow = r.btcFlow * r.price) ∧
    fetch_live_data dStr (some 65000) sampleState =
      .ok ⟨dStr, 65000, 306050, 436.5, 19893250000, 28372500⟩ := by
  refine ⟨?_, fetch_sample⟩
  cases pr with
  | none => exact absurd h (by rw [fetch_eq_none]; intro hc; cases hc)
  | some p =>
    rw [fetch_eq_some] at h
    by_cases hp : p = 0
    · rw [if_pos hp] at h; cases h
    · rw [if_neg hp] at h
      cases hq : extractLastHoldings st with
      | ok q =>
        rw [hq] at h
        have h2 : FetchResult.ok (mkNewEntry d p q) = .ok r := h
        injection h2 with h3
        subst h3
        exact ⟨⟨q, by unfold usedPrevHoldings; rw [hq], rfl⟩, rfl, rfl⟩
      | exc =>
        rw [hq] at h
        have h2 : FetchResult.ok (mkNewEntry d p (latestIbitHoldings - 500)) = .ok r := h
        injection h2 with h3
        subst h3
        exact ⟨⟨latestIbitHoldings - 500, by unfold usedPrevHoldings; rw [hq], rfl⟩, rfl, rfl⟩
      | nullH =>
        rw [hq] at h
        exact absurd (show FetchResult.crash = .ok r from h) (by intro hc; cases hc)

theorem c1_fetch_derived_fields_witness :
    fetch_live_data dStr (some 65000) sampleState =
      .ok ⟨dStr, 65000, 306050, 436.5, 19893250000, 28372500⟩ ∧
    ((∃ prev, usedPrevHoldings sampleState = some prev ∧
        (436.5 : ℚ) = 306050 - prev) ∧
      (19893250000 : ℚ) = 306050 * 65000 ∧ (28372500 : ℚ) = 436.5 * 65000) :=
  ⟨fetch_sample,
    (c1_fetch_derived_fields dStr (some 65000) sampleState
      ⟨dStr, 65000, 306050, 436.5, 19893250000, 28372500⟩ fetch_sample).1⟩

/- ### Claim C3 -/

/-- C3 (code bug): the fallback is applied only when the holdings lookup
raises inside the try-block (third conjunct: unparsable number, fallback
306050 - 500, record still produced).  But on a state whose markers are
absent, or whose array is empty so that the scanned line lacks a
`holdings:` key, no exception is raised, `last_holdings` stays `None`, and
line 69 raises an uncaught TypeError: fetch crashes instead of degrading
(first two conjuncts). -/
theorem c3_fallback_partial :
    fetch_live_data dStr (some 65000) emptyArrayState = .crash ∧
    fetch_live_data dStr (some 65000) [] = .crash ∧
    fetch_live_data dStr (some 65000) badParseState =
      .ok ⟨dStr, 65000, 306050, 500, 19893250000, 32500000⟩ := by
  refine ⟨?_, rfl, fetch_badParse⟩
  rw [fetch_eq_some, if_neg (by norm_num : (65000 : ℚ) ≠ 0), extract_emptyArray]

/- ### Claim C4 -/

/-- C4 counterexample: a negative retrieved price is accepted, so it is not
true that every returned record has a positive price. -/
theorem c4_counterexample :
    fetch_live_data dStr (some (-1)) sampleState =
      .ok ⟨dStr, -1, 306050, 436.5, -306050, -436.5⟩ ∧
    ¬ (0 < (-1 : ℚ)) := by
  constructor
  · rw [fetch_negative_raw]
    simp only [FetchResult.ok.injEq, MetricRecord.mk.injEq, mkNewEntry, latestIbitHoldings]
    norm_num
  · norm_num

/-- C4 (amended): fetch fails with PriceUnavailable exactly when the
retrieved price is absent or zero (every returned record has a nonzero
price), and on that failure the run exits with status 1 before any write,
leaving the state unchanged. -/
theorem c4_price_gate (d : Text) (pr : Option ℚ) (st : Text) :
    (fetch_live_data d pr st = .priceUnavailable ↔ (pr = none ∨ pr = some 0)) ∧
    (∀ r, fetch_live_data d pr st = .ok r → r.price ≠ 0) ∧
    (∀ gen fmt, (pr = none ∨ pr = some 0) → mainRun d pr gen fmt st = (1, st)) := by
  cases pr with
  | none =>
    refine ⟨by simp [fetch_eq_none], ?_, ?_⟩
    · intro r hr
      rw [fetch_eq_none] at hr; cases hr
    · intro gen fmt _
      unfold mainRun
      rw [fetch_eq_none]
  | some p =>
    by_cases hp : p = 0
    · subst hp
      refine ⟨by simp [fetch_eq_some], ?_, ?_⟩
      · intro r hr
        rw [fetch_eq_some, if_pos rfl] at hr; cases hr
      · intro gen fmt _
        unfold mainRun
        rw [fetch_eq_some, if_pos rfl]
    · constructor
      · rw [fetch_eq_some, if_neg hp]
        constructor
        · intro hr
          cases hq : extractLastHoldings st <;> rw [hq] at hr <;> cases hr
        · rintro (hc | hc)
          · cases hc
          · exact absurd (Option.some.inj hc) hp
      · constructor
        · intro r hr
          rw [fetch_eq_some, if_neg hp] at hr
          cases hq : extractLastHoldings st <;> rw [hq] at hr
          · rw [← FetchResult.ok.inj hr]
            exact hp
          · rw [← FetchResult.ok.inj hr]
            exact hp
          · cases hr
        · rintro gen fmt (hc | hc)
          · cases hc
          · exact absurd (Option.some.inj hc) hp

theorem c4_price_gate_witness :
    ((some (0 : ℚ) = none ∨ some (0 : ℚ) = some 0)) ∧
    mainRun dStr (some 0) .missingKey (fun _ => []) sampleState = (1, sampleState) :=
  ⟨Or.inr rfl,
    (c4_price_gate dStr (some 0) sampleState).2.2 .missingKey (fun _ => []) (Or.inr rfl)⟩

/- ### Claim C5 -/

set_option maxRecDepth 40000 in
/-- C5 (code bug): on a document whose narrative opening tag is absent but
which contains a stray closing tag late enough, `update_html_file` does not
fail: the dead check `ai_start_index == -1` (the find result already had the
tag length added) lets the function splice and return an output. -/
theorem c5_missing_tag_still_writes :
    findSub aiStartTag strayCloseState = none ∧
    (updateHtmlFile strayCloseState sampleEntry sampleSummary).isSome = true := by
  exact ⟨rfl, rfl⟩

/- ### Claim C6 -/

/-- C6: whenever the update step fails (returns False), the persisted state
is left byte-identical: both failure returns happen before the file write. -/
theorem c6_no_write_on_failure (st : Text) (e : EntryStrings) (sm : Text)
    (h : updateHtmlFile st e sm = none) : writeBack st e sm = st := by
  unfold writeBack
  rw [h]
  rfl

theorem c6_no_write_on_failure_witness :
    updateHtmlFile [] sampleEntry sampleSummary = none ∧
    writeBack [] sampleEntry sampleSummary = [] :=
  ⟨rfl, c6_no_write_on_failure [] sampleEntry sampleSummary rfl⟩

/- ### Generic facts about the text operations -/

theorem headq_append (X Y : Text) (h : X ≠ []) : (X ++ Y).head? = X.head? :=
  List.head?_append_of_ne_nil X h

theorem dropWhile_twice (p : Char → Bool) (l : Text) :
    (l.dropWhile p).dropWhile p = l.dropWhile p := by
  induction l with
  | nil => rfl
  | cons c cs ih =>
    rw [List.dropWhile_cons]
    by_cases hc : p c = true
    · rw [if_pos hc]; exact ih
    · rw [if_neg hc, List.dropWhile_cons, if_neg hc]

theorem head_dropWhile_false (p : Char → Bool) (l : Text) :
    ∀ c, (l.dropWhile p).head? = some c → p c = false := by
  induction l with
  | nil => intro c h; cases h
  | cons a as ih =>
    intro c h
    rw [List.dropWhile_cons] at h
    by_cases hb : p a = true
    · rw [if_pos hb] at h
      exact ih c h
    · rw [if_neg hb] at h
      simp only [List.head?_cons, Option.some.injEq] at h
      subst h
      simp at hb
      exact hb

theorem rev_dropWhile_head (p : Char → Bool) (s : Text) (c : Char)
    (h : s.head? = some c) (hc : p c = false) :
    ((s.reverse.dropWhile p).reverse).head? = some c := by
  cases s with
  | nil => cases h
  | cons a as =>
    simp only [List.head?_cons, Option.some.injEq] at h
    subst h
    rw [List.reverse_cons, List.dropWhile_append]
    by_cases he : (as.reverse.dropWhile p).isEmpty = true
    · rw [if_pos he]
      simp [List.dropWhile_cons, hc]
    · rw [if_neg he]
      rw [List.reverse_append]
      simp

theorem lstrip_of_head (s : Text) (c : Char) (h : s.head? = some c)
    (hc : pyIsWs c = false) : lstripWs s = s := by
  cases s with
  | nil => rfl
  | cons a as =>
    simp only [List.head?_cons, Option.some.injEq] at h
    subst h
    unfold lstripWs
    rw [List.dropWhile_cons, if_neg (by simp [hc])]

theorem rstripWs_head (t : Text) (c : Char) (h : t.head? = some c)
    (hc : pyIsWs c = false) : (rstripWs t).head? = some c := by
  unfold rstripWs
  exact rev_dropWhile_head pyIsWs t c h hc

theorem rstripComma_head (t : Text) (c : Char) (h : t.head? = some c)
    (hc : ¬ c = ',') : (rstripComma t).head? = some c := by
  unfold rstripComma
  exact rev_dropWhile_head _ t c h (by simp [hc])

theorem rstrip_append_ws (X W : Text) (hW : W.all pyIsWs = true) :
    rstripWs (X ++ W) = rstripWs X := by
  unfold rstripWs
  rw [List.reverse_append, List.dropWhile_append]
  have he : (W.reverse.dropWhile pyIsWs).isEmpty = true := by
    simp only [List.isEmpty_iff, List.dropWhile_eq_nil_iff]
    intro x hx
    exact List.all_eq_true.mp hW x (List.mem_reverse.mp hx)
  rw [if_pos he]

theorem rstrip_append_solid (X : Text) (c : Char) (hc : pyIsWs c = false) :
    rstripWs (X ++ [c]) = X ++ [c] := by
  unfold rstripWs
  rw [List.reverse_append]
  simp only [List.reverse_cons, List.reverse_nil, List.nil_append, List.singleton_append]
  rw [List.dropWhile_cons, if_neg (by simp [hc])]
  simp

theorem rstripComma_append_comma (X : Text) : rstripComma (X ++ [',']) = rstripComma X := by
  unfold rstripComma
  rw [List.reverse_append]
  simp only [List.reverse_cons, List.reverse_nil, List.nil_append, List.singleton_append]
  rw [List.dropWhile_cons, if_pos (by simp)]

theorem rstripComma_append_solid (X : Text) (c : Char) (hc : ¬ c = ',') :
    rstripComma (X ++ [c]) = X ++ [c] := by
  unfold rstripComma
  rw [List.reverse_append]
  simp only [List.reverse_cons, List.reverse_nil, List.nil_append, List.singleton_append]
  rw [List.dropWhile_cons, if_neg (by simp [hc])]
  simp

theorem rstripComma_idem (s : Text) : rstripComma (rstripComma s) = rstripComma s := by
  unfold rstripComma
  rw [List.reverse_reverse, dropWhile_twice]

theorem mem_pyStrip_sub (s : Text) (a : Char) (h : a ∈ pyStrip s) : a ∈ s := by
  unfold pyStrip rstripWs lstripWs at h
  rw [List.mem_reverse] at h
  have h2 := (List.dropWhile_sublist _).subset h
  rw [List.mem_reverse] at h2
  exact (List.dropWhile_sublist _).subset h2

theorem mem_rstripComma_sub (s : Text) (a : Char) (h : a ∈ rstripComma s) : a ∈ s := by
  unfold rstripComma at h
  rw [List.mem_reverse] at h
  have h2 := (List.dropWhile_sublist _).subset h
  rw [List.mem_reverse] at h2
  exact h2

theorem replaceAllAux_congr (pat rep : Text) :
    ∀ (f f' : Nat) (s : Text), s.length ≤ f → s.length ≤ f' →
      replaceAllAux pat rep f s = replaceAllAux pat rep f' s := by
  intro f
  induction f with
  | zero =>
    intro f' s hf _
    rw [Nat.le_zero, List.length_eq_zero] at hf
    subst hf
    cases f' <;> rfl
  | succ g ih =>
    intro f' s hf hf'
    cases s with
    | nil => cases f' <;> rfl
    | cons c cs =>
      cases f' with
      | zero =>
        rw [Nat.le_zero] at hf'
        simp at hf'
      | succ g' =>
        show (if pat.isPrefixOf (c :: cs) ∧ pat ≠ [] then
            rep ++ replaceAllAux pat rep g (cs.drop (pat.length - 1))
          else c :: replaceAllAux pat rep g cs)
          = (if pat.isPrefixOf (c :: cs) ∧ pat ≠ [] then
            rep ++ replaceAllAux pat rep g' (cs.drop (pat.length - 1))
          else c :: replaceAllAux pat rep g' cs)
        have hg : cs.length ≤ g := Nat.le_of_succ_le_succ hf
        have hg' : cs.length ≤ g' := Nat.le_of_succ_le_succ hf'
        have hdrop : (cs.drop (pat.length - 1)).length ≤ cs.length := by
          rw [List.length_drop]
          omega
        by_cases hcond : pat.isPrefixOf (c :: cs) ∧ pat ≠ []
        · rw [if_pos hcond, if_pos hcond]
          rw [ih g' _ (le_trans hdrop hg) (le_trans hdrop hg')]
        · rw [if_neg hcond, if_neg hcond]
          rw [ih g' cs hg hg']

theorem replaceAll_nil (pat rep : Text) : replaceAll pat rep [] = [] := rfl

theorem replaceAll_cons_eq (pat rep : Text) (c : Char) (cs : Text) :
    replaceAll pat rep (c :: cs) =
      if pat.isPrefixOf (c :: cs) ∧ pat ≠ [] then
        rep ++ replaceAll pat rep (cs.drop (pat.length - 1))
      else c :: replaceAll pat rep cs := by
  show (if pat.isPrefixOf (c :: cs) ∧ pat ≠ [] then
      rep ++ replaceAllAux pat rep cs.length (cs.drop (pat.length - 1))
    else c :: replaceAllAux pat rep cs.length cs) = _
  have hdrop : (cs.drop (pat.length - 1)).length ≤ cs.length := by
    rw [List.length_drop]
    omega
  by_cases hcond : pat.isPrefixOf (c :: cs) ∧ pat ≠ []
  · rw [if_pos hcond, if_pos hcond]
    unfold replaceAll
    rw [replaceAllAux_congr pat rep cs.length (cs.drop (pat.length - 1)).length _ hdrop
      (Nat.le_refl _)]
  · rw [if_neg hcond, if_neg hcond]
    rfl

/- ### Facts about splitting on newlines -/

theorem foldr_nlStep_ne_nil (s : Text) (acc : List Text) (h : acc ≠ []) :
    s.foldr nlStep acc ≠ [] := by
  induction s with
  | nil => exact h
  | cons c cs ih =>
    rw [List.foldr_cons]
    unfold nlStep
    by_cases hc : c = '\n'
    · rw [if_pos hc]; exact List.cons_ne_nil _ _
    · rw [if_neg hc]; exact List.cons_ne_nil _ _

theorem splitNl_ne_nil (s : Text) : splitNl s ≠ [] :=
  foldr_nlStep_ne_nil s [[]] (by simp)

theorem foldr_chunk (x : Text) (hx : ('\n' : Char) ∉ x) (acc : List Text) (hacc : acc ≠ []) :
    x.foldr nlStep acc = (x ++ acc.headD []) :: acc.tail := by
  induction x with
  | nil =>
    cases acc with
    | nil => exact absurd rfl hacc
    | cons a t => simp
  | cons c cs ih =>
    have hc : c ≠ '\n' := fun hh => hx (by rw [← hh]; exact List.mem_cons_self c cs)
    have hcs : ('\n' : Char) ∉ cs := fun hh => hx (List.mem_cons_of_mem c hh)
    rw [List.foldr_cons, ih hcs]
    unfold nlStep
    rw [if_neg hc]
    simp

theorem splitNl_nl (b : Text) : splitNl ('\n' :: b) = [] :: splitNl b := by
  unfold splitNl
  rw [List.foldr_cons]
  unfold nlStep
  rw [if_pos rfl]

theorem splitNl_chunk (x b : Text) (hx : ('\n' : Char) ∉ x) :
    splitNl (x ++ '\n' :: b) = x :: splitNl b := by
  unfold splitNl
  rw [List.foldr_append, List.foldr_cons]
  rw [show nlStep '\n' (b.foldr nlStep [[]]) = [] :: b.foldr nlStep [[]] by
    unfold nlStep; rw [if_pos rfl]]
  rw [foldr_chunk x hx _ (List.cons_ne_nil _ _)]
  simp

theorem splitNl_single (x : Text) (hx : ('\n' : Char) ∉ x) : splitNl x = [x] := by
  unfold splitNl
  rw [foldr_chunk x hx [[]] (by simp)]
  simp

theorem mem_foldr_nlStep_no_nl (s : Text) (acc : List Text) (hacc : acc ≠ [])
    (hm : ∀ m ∈ acc, ('\n' : Char) ∉ m) :
    ∀ l ∈ s.foldr nlStep acc, ('\n' : Char) ∉ l := by
  induction s with
  | nil => exact hm
  | cons c cs ih =>
    intro l hl
    rw [List.foldr_cons] at hl
    unfold nlStep at hl
    by_cases hc : c = '\n'
    · rw [if_pos hc] at hl
      rcases List.mem_cons.mp hl with h1 | h1
      · subst h1; simp
      · exact ih l h1
    · rw [if_neg hc] at hl
      rcases List.mem_cons.mp hl with h1 | h1
      · subst h1
        intro hmem
        rcases List.mem_cons.mp hmem with h2 | h2
        · exact hc h2.symm
        · have hne := foldr_nlStep_ne_nil cs acc hacc
          have hmemhead : (cs.foldr nlStep acc).headD [] ∈ cs.foldr nlStep acc := by
            cases hfold : cs.foldr nlStep acc with
            | nil => exact absurd hfold hne
            | cons a t => simp
          exact ih _ hmemhead h2
      · exact ih l (List.mem_of_mem_tail h1)

theorem mem_splitNl_no_nl (s : Text) : ∀ l ∈ splitNl s, ('\n' : Char) ∉ l :=
  mem_foldr_nlStep_no_nl s [[]] (by simp) (by simp)

/- ### Last-element helpers -/

theorem dropLast_lastD (ls : List Text) (h : ls ≠ []) :
    ls.dropLast ++ [lastD ls] = ls := by
  induction ls with
  | nil => exact absurd rfl h
  | cons x t ih =>
    cases t with
    | nil => rfl
    | cons y r =>
      have h2 := ih (List.cons_ne_nil y r)
      calc (x :: y :: r).dropLast ++ [lastD (x :: y :: r)]
          = x :: ((y :: r).dropLast ++ [lastD (y :: r)]) := rfl
        _ = x :: (y :: r) := by rw [h2]

theorem lastD_mem (ls : List Text) (h : ls ≠ []) : lastD ls ∈ ls := by
  induction ls with
  | nil => exact absurd rfl h
  | cons x t ih =>
    cases t with
    | nil => simp [lastD]
    | cons y r =>
      rw [show lastD (x :: y :: r) = lastD (y :: r) from rfl]
      exact List.mem_cons_of_mem x (ih (List.cons_ne_nil y r))

theorem lastD_concat (A : List Text) (a : Text) : lastD (A ++ [a]) = a := by
  induction A with
  | nil => rfl
  | cons x t ih =>
    cases t with
    | nil => rfl
    | cons y r => exact ih

theorem foldr_joinNl (ls : List Text) (hne : ls ≠ []) (hnl : ∀ l ∈ ls, ('\n' : Char) ∉ l)
    (acc : List Text) (hacc : acc ≠ []) :
    (joinNl ls).foldr nlStep acc = ls.dropLast ++ (lastD ls ++ acc.headD []) :: acc.tail := by
  induction ls with
  | nil => exact absurd rfl hne
  | cons x t ih =>
    cases t with
    | nil =>
      rw [show joinNl [x] = x from rfl]
      rw [foldr_chunk x (hnl x (List.mem_cons_self x [])) acc hacc]
      rfl
    | cons y r =>
      rw [show joinNl (x :: y :: r) = x ++ '\n' :: joinNl (y :: r) from rfl]
      rw [List.foldr_append, List.foldr_cons]
      rw [show nlStep '\n' ((joinNl (y :: r)).foldr nlStep acc) =
        [] :: (joinNl (y :: r)).foldr nlStep acc by unfold nlStep; rw [if_pos rfl]]
      rw [ih (List.cons_ne_nil y r) (fun l hl => hnl l (List.mem_cons_of_mem x hl))]
      rw [foldr_chunk x (hnl x (List.mem_cons_self x _)) _ (List.cons_ne_nil _ _)]
      simp
      rfl

/- ### Facts about the last-line fix of lines 148-149 -/

theorem fixLastLine_ne_nil (ls : List Text) (h : ls ≠ []) : fixLastLine ls ≠ [] := by
  cases ls with
  | nil => exact absurd rfl h
  | cons x t =>
    cases t with
    | nil => exact List.cons_ne_nil _ _
    | cons y r => exact List.cons_ne_nil _ _

theorem fixLastLine_eq (ls : List Text) (h : ls ≠ []) :
    fixLastLine ls = ls.dropLast ++ [entryLineFix (lastD ls)] := by
  induction ls with
  | nil => exact absurd rfl h
  | cons x t ih =>
    cases t with
    | nil => rfl
    | cons y r =>
      show x :: fixLastLine (y :: r) = (x :: y :: r).dropLast ++ [entryLineFix (lastD (x :: y :: r))]
      rw [ih (List.cons_ne_nil _ _)]
      rfl

theorem mem_entryLineFix_sub (l : Text) (a : Char) (h : a ∈ entryLineFix l) : a ∈ l := by
  unfold entryLineFix at h
  by_cases hb : (pyStrip l).head? = some braceChar
  · rw [if_pos hb] at h
    exact mem_pyStrip_sub l a (mem_rstripComma_sub _ a h)
  · rw [if_neg hb] at h
    exact h

/- ### Facts about the serialized entry and entry parsing -/

theorem entryOf_eq (l : Text) :
    entryOf l = if (pyStrip l).head? = some braceChar then some (rstripComma (pyStrip l))
      else none := rfl

theorem serial_head (e : EntryStrings) : (serializeEntry e).head? = some braceChar := rfl

theorem serial_ne_nil (e : EntryStrings) : serializeEntry e ≠ [] := by
  intro h
  have h2 := serial_head e
  rw [h] at h2
  cases h2

theorem serial_closing (e : EntryStrings) : ∃ S, serializeEntry e = S ++ ['\x7d'] := by
  refine ⟨serialDatePre ++ '"' :: (e.date ++ '"' :: (", price: ".toList ++ e.price
    ++ ", holdings: ".toList ++ e.holdings ++ ", btcFlow: ".toList ++ e.btcFlow
    ++ ", aum: ".toList ++ e.aum ++ ", usdFlow: ".toList ++ e.usdFlow ++ [' '])), ?_⟩
  unfold serializeEntry
  rw [show (" \x7d".toList : Text) = [' '] ++ ['\x7d'] from rfl]
  simp

theorem head_some_ne_nil (A : Text) (c : Char) (h : A.head? = some c) : A ≠ [] := by
  intro hh
  rw [hh] at h
  cases h

theorem lstrip_append_of_head (A B : Text) (c : Char) (hA : A.head? = some c)
    (hc : pyIsWs c = false) : lstripWs (A ++ B) = A ++ B :=
  lstrip_of_head _ c (by rw [headq_append _ _ (head_some_ne_nil A c hA)]; exact hA) hc

theorem rstripWs_pre (X : Text) : ∃ t, X = rstripWs X ++ t := by
  obtain ⟨t, ht⟩ := List.dropWhile_suffix (l := X.reverse) (p := pyIsWs)
  refine ⟨t.reverse, ?_⟩
  unfold rstripWs
  calc X = X.reverse.reverse := (List.reverse_reverse X).symm
    _ = (t ++ X.reverse.dropWhile pyIsWs).reverse := by rw [ht]
    _ = (X.reverse.dropWhile pyIsWs).reverse ++ t.reverse := by rw [List.reverse_append]

/-- The head of a stripped nonempty string is a non-whitespace character. -/
theorem pyStrip_head_not_ws (R : Text) (c : Char) (rest : Text)
    (h : pyStrip R = c :: rest) : pyIsWs c = false := by
  obtain ⟨t, ht⟩ := rstripWs_pre (lstripWs R)
  have hhead : (lstripWs R).head? = some c := by
    rw [ht]
    unfold pyStrip at h
    rw [h]
    rfl
  exact head_dropWhile_false pyIsWs R c hhead

/-- The first line of splitting at a non-newline head. -/
theorem splitNl_cons_not_nl (c : Char) (s : Text) (hc : ¬ c = '\n') :
    splitNl (c :: s) = (c :: (splitNl s).headD []) :: (splitNl s).tail := by
  unfold splitNl
  rw [List.foldr_cons]
  unfold nlStep
  rw [if_neg hc]

/-- The joined fixed line list is empty or starts with a non-whitespace
character. -/
theorem joinNl_fix_head (R : Text) :
    joinNl (fixLastLine (splitNl (pyStrip R))) = [] ∨
    ∃ c, (joinNl (fixLastLine (splitNl (pyStrip R)))).head? = some c ∧ pyIsWs c = false := by
  cases hR : pyStrip R with
  | nil =>
    left
    rfl
  | cons c0 rest =>
    right
    have hc0 : pyIsWs c0 = false := pyStrip_head_not_ws R c0 rest hR
    have hc0nl : ¬ c0 = '\n' := by
      intro hh
      rw [hh] at hc0
      cases hc0
    rw [splitNl_cons_not_nl c0 rest hc0nl]
    cases htail : (splitNl rest).tail with
    | nil =>
      rw [show fixLastLine [c0 :: (splitNl rest).headD []] =
          [entryLineFix (c0 :: (splitNl rest).headD [])] from rfl]
      rw [show joinNl [entryLineFix (c0 :: (splitNl rest).headD [])] =
          entryLineFix (c0 :: (splitNl rest).headD []) from rfl]
      unfold entryLineFix
      by_cases hb : (pyStrip (c0 :: (splitNl rest).headD [])).head? = some braceChar
      · rw [if_pos hb]
        exact ⟨braceChar, rstripComma_head _ _ hb (by decide), by decide⟩
      · rw [if_neg hb]
        exact ⟨c0, rfl, hc0⟩
    | cons t1 ts =>
      rw [show fixLastLine ((c0 :: (splitNl rest).headD []) :: t1 :: ts) =
          (c0 :: (splitNl rest).headD []) :: fixLastLine (t1 :: ts) from rfl]
      cases hfix : fixLastLine (t1 :: ts) with
      | nil => exact absurd hfix (fixLastLine_ne_nil _ (List.cons_ne_nil _ _))
      | cons f fs =>
        rw [show joinNl ((c0 :: (splitNl rest).headD []) :: f :: fs) =
            (c0 :: (splitNl rest).headD []) ++ '\n' :: joinNl (f :: fs) from rfl]
        exact ⟨c0, by rw [headq_append _ _ (List.cons_ne_nil _ _)]; rfl, hc0⟩

theorem entryOf_constLine : entryOf constLine = none := by decide

/-- The last-line fix composed with the re-appended separator parses back to
the same entry (or to no entry). -/
theorem entryOf_fix_comma (l : Text) :
    entryOf (entryLineFix l ++ [',']) = entryOf l := by
  unfold entryLineFix
  by_cases hb : (pyStrip l).head? = some braceChar
  · rw [if_pos hb]
    have ht : (rstripComma (pyStrip l)).head? = some braceChar :=
      rstripComma_head _ _ hb (by decide)
    have hne : rstripComma (pyStrip l) ≠ [] := head_some_ne_nil _ _ ht
    rw [entryOf_eq]
    rw [show pyStrip (rstripComma (pyStrip l) ++ [',']) = rstripComma (pyStrip l) ++ [','] by
      show rstripWs (lstripWs (rstripComma (pyStrip l) ++ [','])) = rstripComma (pyStrip l) ++ [',']
      rw [lstrip_append_of_head _ _ braceChar ht (by decide)]
      exact rstrip_append_solid _ ',' (by decide)]
    rw [if_pos (by rw [headq_append _ _ hne]; exact ht)]
    rw [rstripComma_append_comma, rstripComma_idem]
    rw [entryOf_eq, if_pos hb]
  · rw [if_neg hb]
    rw [entryOf_eq, entryOf_eq, if_neg hb]
    by_cases he : lstripWs l = []
    · rw [show pyStrip (l ++ [',']) = [','] by
        unfold pyStrip
        rw [show lstripWs (l ++ [',']) = [','] by
          unfold lstripWs at he ⊢
          rw [List.dropWhile_append, he]
          rfl]
        rfl]
      rw [if_neg (by decide)]
    · obtain ⟨c, hc⟩ : ∃ c, (lstripWs l).head? = some c := by
        cases hq : lstripWs l with
        | nil => exact absurd hq he
        | cons a t => exact ⟨a, rfl⟩
      have hcws : pyIsWs c = false := head_dropWhile_false pyIsWs l c hc
      rw [show pyStrip (l ++ [',']) = lstripWs l ++ [','] by
        unfold pyStrip
        rw [show lstripWs (l ++ [',']) = lstripWs l ++ [','] by
          unfold lstripWs
          rw [List.dropWhile_append]
          rw [if_neg (by
            intro hcontra
            rw [List.isEmpty_iff] at hcontra
            exact he hcontra)]]
        exact rstrip_append_solid _ ',' (by decide)]
      rw [if_neg (by
        rw [headq_append _ _ he]
        intro hcontra
        apply hb
        show (rstripWs (lstripWs l)).head? = some braceChar
        exact rstripWs_head (lstripWs l) braceChar hcontra (by decide))]

/-- The injected last line parses to the serialized entry glued to the
closing bracket token. -/
theorem entryOf_indent_serial (e : EntryStrings) :
    entryOf (indent12 ++ (serializeEntry e ++ closeBr)) =
      some (serializeEntry e ++ closeBr) := by
  obtain ⟨S, hS⟩ := serial_closing e
  rw [entryOf_eq]
  have hser : (serializeEntry e ++ closeBr).head? = some braceChar := by
    rw [headq_append _ _ (serial_ne_nil e)]
    exact serial_head e
  rw [show pyStrip (indent12 ++ (serializeEntry e ++ closeBr)) = serializeEntry e ++ closeBr by
    unfold pyStrip
    rw [show lstripWs (indent12 ++ (serializeEntry e ++ closeBr)) =
        lstripWs (serializeEntry e ++ closeBr) from rfl]
    rw [lstrip_of_head _ braceChar hser (by decide)]
    rw [show serializeEntry e ++ closeBr = (serializeEntry e ++ [']']) ++ [';'] by
      rw [show (closeBr : Text) = [']'] ++ [';'] from rfl]
      simp]
    exact rstrip_append_solid _ ';' (by decide)]
  rw [if_pos hser]
  rw [show serializeEntry e ++ closeBr = (serializeEntry e ++ [']']) ++ [';'] by
    rw [show (closeBr : Text) = [']'] ++ [';'] from rfl]
    simp]
  rw [rstripComma_append_solid _ ';' (by decide)]

theorem lstrip_regionHead (X : Text) :
    lstripWs (regionHead ++ X) = constLine ++ '\n' :: X := rfl

/-- Stripping the rewritten region template (any middle text). -/
theorem strip_region (B : Text) :
    pyStrip (regionHead ++ B ++ closeBr ++ trailingWs)
      = constLine ++ '\n' :: (B ++ closeBr) := by
  show rstripWs (lstripWs ((regionHead ++ B ++ closeBr) ++ trailingWs)) = _
  rw [show ((regionHead ++ B ++ closeBr) ++ trailingWs : Text)
      = regionHead ++ (B ++ (closeBr ++ trailingWs)) by simp]
  rw [lstrip_regionHead]
  rw [show (constLine ++ '\n' :: (B ++ (closeBr ++ trailingWs)) : Text)
      = ((constLine ++ '\n' :: (B ++ [']'])) ++ [';']) ++ trailingWs by
    rw [show (closeBr : Text) = [']'] ++ [';'] from rfl]
    simp]
  rw [rstrip_append_ws _ trailingWs (by decide)]
  rw [rstrip_append_solid _ ';' (by decide)]
  rw [show (closeBr : Text) = [']'] ++ [';'] from rfl]
  simp

/-- Stripping the updated data block of line 154. -/
theorem strip_update_block (J : Text) (e : EntryStrings)
    (hJ : J = [] ∨ ∃ c, J.head? = some c ∧ pyIsWs c = false) :
    pyStrip (J ++ commaSep ++ serializeEntry e ++ trailingWs)
      = J ++ commaSep ++ serializeEntry e := by
  obtain ⟨S, hS⟩ := serial_closing e
  have hl : lstripWs (J ++ commaSep ++ serializeEntry e ++ trailingWs)
      = J ++ commaSep ++ serializeEntry e ++ trailingWs := by
    rcases hJ with hj | ⟨c, hc, hcw⟩
    · subst hj
      simp only [List.nil_append]
      rw [show (commaSep ++ serializeEntry e ++ trailingWs : Text)
          = commaSep ++ (serializeEntry e ++ trailingWs) by simp]
      exact lstrip_append_of_head _ _ ',' rfl (by decide)
    · rw [show (J ++ commaSep ++ serializeEntry e ++ trailingWs : Text)
          = J ++ (commaSep ++ (serializeEntry e ++ trailingWs)) by simp]
      rw [lstrip_append_of_head _ _ c hc hcw]
  show rstripWs (lstripWs (J ++ commaSep ++ serializeEntry e ++ trailingWs)) = _
  rw [hl]
  rw [rstrip_append_ws _ trailingWs (by decide)]
  rw [hS]
  rw [show ((J ++ commaSep) ++ (S ++ ['\x7d']) : Text) = ((J ++ commaSep) ++ S) ++ ['\x7d'] by simp]
  rw [rstrip_append_solid _ _ (by decide)]

/-- Splitting the reassembled block: the joined old lines, the separator,
then the indented new line. -/
theorem splitNl_append_comma_line (ls : List Text) (W : Text)
    (hne : ls ≠ []) (hnl : ∀ l ∈ ls, ('\n' : Char) ∉ l) (hW : ('\n' : Char) ∉ W) :
    splitNl (joinNl ls ++ (',' :: '\n' :: W)) = ls.dropLast ++ (lastD ls ++ [',']) :: [W] := by
  unfold splitNl
  rw [List.foldr_append]
  rw [List.foldr_cons, List.foldr_cons]
  rw [show W.foldr nlStep [[]] = [W] from by
    have h2 := splitNl_single W hW
    unfold splitNl at h2
    exact h2]
  rw [show nlStep '\n' [W] = [[], W] from by unfold nlStep; rw [if_pos rfl]]
  rw [show nlStep ',' [[], W] = [[','], W] from by unfold nlStep; rw [if_neg (by decide)]; rfl]
  rw [foldr_joinNl ls hne hnl _ (List.cons_ne_nil _ _)]
  rfl

/-- The central fact about lines 144-157: parsing the freshly written data
region yields the old entries followed by the new serialized entry with the
array-closing token glued onto its line. -/
theorem newDataRegion_entries (R : Text) (e : EntryStrings)
    (hnl : ('\n' : Char) ∉ serializeEntry e) :
    entriesOf (newDataRegion R e) = entriesOf R ++ [serializeEntry e ++ closeBr] := by
  have hlsne := splitNl_ne_nil (pyStrip R)
  have hlsnl := mem_splitNl_no_nl (pyStrip R)
  have hfne := fixLastLine_ne_nil _ hlsne
  have hfnl : ∀ l ∈ fixLastLine (splitNl (pyStrip R)), ('\n' : Char) ∉ l := by
    rw [fixLastLine_eq _ hlsne]
    intro l hl
    rcases List.mem_append.mp hl with h1 | h1
    · refine hlsnl l ?_
      rw [← dropLast_lastD _ hlsne]
      exact List.mem_append.mpr (Or.inl h1)
    · rw [List.mem_singleton] at h1
      subst h1
      intro hmem
      exact hlsnl _ (lastD_mem _ hlsne) (mem_entryLineFix_sub _ _ hmem)
  have hW : ('\n' : Char) ∉ indent12 ++ (serializeEntry e ++ closeBr) := by
    intro hmem
    rcases List.mem_append.mp hmem with h | h
    · exact absurd h (by decide)
    · rcases List.mem_append.mp h with h2 | h2
      · exact hnl h2
      · exact absurd h2 (by decide)
  show (splitNl (pyStrip (newDataRegion R e))).filterMap entryOf
      = (splitNl (pyStrip R)).filterMap entryOf ++ [serializeEntry e ++ closeBr]
  rw [show newDataRegion R e
      = regionHead ++ pyStrip (joinNl (fixLastLine (splitNl (pyStrip R))) ++ commaSep
          ++ serializeEntry e ++ trailingWs) ++ closeBr ++ trailingWs from rfl]
  rw [strip_region]
  rw [strip_update_block _ e (joinNl_fix_head R)]
  rw [splitNl_chunk _ _ (by decide)]
  rw [show ((joinNl (fixLastLine (splitNl (pyStrip R))) ++ commaSep ++ serializeEntry e)
        ++ closeBr : Text)
      = joinNl (fixLastLine (splitNl (pyStrip R)))
        ++ (',' :: '\n' :: (indent12 ++ (serializeEntry e ++ closeBr))) by
    rw [show (commaSep : Text) = ',' :: '\n' :: indent12 from rfl]
    simp]
  rw [splitNl_append_comma_line _ _ hfne hfnl hW]
  rw [fixLastLine_eq _ hlsne, List.dropLast_concat, lastD_concat]
  rw [List.filterMap_cons_none entryOf_constLine]
  rw [List.filterMap_append]
  conv_rhs => rw [← dropLast_lastD _ hlsne]
  rw [List.filterMap_append]
  conv_rhs => rw [List.append_assoc]
  congr 1
  cases hcase : entryOf (lastD (splitNl (pyStrip R))) with
  | none =>
    rw [List.filterMap_cons_none (by rw [entryOf_fix_comma]; exact hcase)]
    rw [List.filterMap_cons_none hcase]
    rw [List.filterMap_cons_some (entryOf_indent_serial e)]
    rfl
  | some v =>
    rw [List.filterMap_cons_some (by rw [entryOf_fix_comma]; exact hcase)]
    rw [List.filterMap_cons_some hcase]
    rw [List.filterMap_cons_some (entryOf_indent_serial e)]
    rfl

/- ### Claim C2 -/

/-- C2: for every prior data region, injection adds exactly one entry and
reproduces every prior entry's text, in order, as a prefix of the new entry
list. -/
theorem c2_injection_appends (R : Text) (e : EntryStrings)
    (hnl : ('\n' : Char) ∉ serializeEntry e) :
    (entriesOf (newDataRegion R e)).length = (entriesOf R).length + 1 ∧
    (entriesOf (newDataRegion R e)).take (entriesOf R).length = entriesOf R := by
  rw [newDataRegion_entries R e hnl]
  constructor
  · simp
  · exact List.take_left _ _

set_option maxRecDepth 20000 in
theorem c2_injection_appends_witness :
    (('\n' : Char) ∉ serializeEntry sampleEntry) ∧
    ((entriesOf (newDataRegion sampleRegion sampleEntry)).length
        = (entriesOf sampleRegion).length + 1 ∧
      (entriesOf (newDataRegion sampleRegion sampleEntry)).take
          (entriesOf sampleRegion).length = entriesOf sampleRegion) :=
  ⟨by decide, c2_injection_appends sampleRegion sampleEntry (by decide)⟩

/- ### Claim C7 -/

set_option maxRecDepth 20000 in
/-- C7 counterexample: the data region produced by injection, re-parsed by
the program's own notion of entries, yields as last entry the serialized
record with the literal `];` glued on (line 157 appends it to the same
line), which is not byte-identical to the serialization. -/
theorem c7_counterexample :
    (entriesOf (newDataRegion sampleRegion sampleEntry)).getLast?
      = some (serializeEntry sampleEntry ++ closeBr) ∧
    serializeEntry sampleEntry ++ closeBr ≠ serializeEntry sampleEntry := by
  refine ⟨rfl, ?_⟩
  decide

/-- C7 (amended): re-parsing an injected data region yields the prior
entries unchanged and, as final entry, exactly the serialized record with
the literal `];` array terminator appended; injection is idempotent on
format only up to that glued suffix. -/
theorem c7_roundtrip_suffix (R : Text) (e : EntryStrings)
    (hnl : ('\n' : Char) ∉ serializeEntry e) :
    (entriesOf (newDataRegion R e)).getLast? = some (serializeEntry e ++ closeBr) := by
  rw [newDataRegion_entries R e hnl]
  simp

set_option maxRecDepth 20000 in
theorem c7_roundtrip_suffix_witness :
    (('\n' : Char) ∉ serializeEntry sampleEntry) ∧
    (entriesOf (newDataRegion sampleRegion sampleEntry)).getLast?
      = some (serializeEntry sampleEntry ++ closeBr) :=
  ⟨by decide, c7_roundtrip_suffix sampleRegion sampleEntry (by decide)⟩

/- ### Claim C8 machinery: dates of entries -/

theorem findSub_quote_serialPre (Y : Text) :
    findSub ['"'] (serialDatePre ++ '"' :: Y) = some 8 := by
  unfold serialDatePre
  simp [findSub, List.isPrefixOf]

theorem isPrefixOf_single (c : Char) (b : Text) : ([c].isPrefixOf (c :: b)) = true := by
  simp [List.isPrefixOf]

theorem findSub_char_append (c : Char) (a b : Text) (ha : c ∉ a) :
    findSub [c] (a ++ c :: b) = some a.length := by
  induction a with
  | nil =>
    show findSub [c] (c :: b) = some 0
    unfold findSub
    rw [if_pos (isPrefixOf_single c b)]
  | cons x xs ih =>
    have hx : ¬ ([c].isPrefixOf (x :: (xs ++ c :: b))) = true := by
      intro hcontra
      simp [List.isPrefixOf] at hcontra
      exact ha (by rw [hcontra]; exact List.mem_cons_self x xs)
    show findSub [c] (x :: (xs ++ c :: b)) = some (xs.length + 1)
    unfold findSub
    rw [if_neg hx, ih (fun hm => ha (List.mem_cons_of_mem x hm))]
    rfl

theorem drop9_serialPre (Y : Text) : (serialDatePre ++ '"' :: Y).drop 9 = Y := rfl

/-- Reading the date back out of a serialized entry with anything appended. -/
theorem dateOf_serial (e : EntryStrings) (X : Text) (hq : ('"' : Char) ∉ e.date) :
    dateOf (serializeEntry e ++ X) = some e.date := by
  obtain ⟨T, hT⟩ : ∃ T, serializeEntry e ++ X = serialDatePre ++ '"' :: (e.date ++ '"' :: T) := by
    refine ⟨(", price: ".toList ++ e.price ++ ", holdings: ".toList ++ e.holdings
      ++ ", btcFlow: ".toList ++ e.btcFlow ++ ", aum: ".toList ++ e.aum
      ++ ", usdFlow: ".toList ++ e.usdFlow ++ " \x7d".toList) ++ X, ?_⟩
    unfold serializeEntry
    simp
  rw [hT]
  unfold dateOf
  rw [findSub_quote_serialPre]
  rw [Option.some_bind]
  rw [show (8 + 1 : Nat) = 9 from rfl]
  rw [drop9_serialPre]
  rw [findSub_char_append '"' e.date _ hq]
  rw [Option.map_some']
  rw [List.take_left]

/-- The dates of a freshly injected region are the old dates plus the new
record's date. -/
theorem datesOf_newRegion (R : Text) (e : EntryStrings)
    (hnl : ('\n' : Char) ∉ serializeEntry e) (hq : ('"' : Char) ∉ e.date) :
    datesOf (newDataRegion R e) = datesOf R ++ [e.date] := by
  unfold datesOf
  rw [newDataRegion_entries R e hnl]
  rw [List.filterMap_append]
  rw [List.filterMap_cons_some (dateOf_serial e closeBr hq)]
  rfl

theorem pairwiseB_concat_true (f : Text → Text → Bool) (l : List Text) (d : Text) :
    pairwiseB f (l ++ [d]) = true ↔
      (pairwiseB f l = true ∧ ∀ x ∈ l, f x d = true) := by
  induction l with
  | nil => simp [pairwiseB]
  | cons x xs ih =>
    show ((xs ++ [d]).all (f x) && pairwiseB f (xs ++ [d])) = true ↔ _
    rw [Bool.and_eq_true, ih, List.all_append]
    rw [show (pairwiseB f (x :: xs) = true) = ((xs.all (f x) && pairwiseB f xs) = true) from rfl]
    rw [Bool.and_eq_true, Bool.and_eq_true]
    simp only [List.all_eq_true, List.mem_cons, List.all_cons, Bool.and_eq_true]
    constructor
    · rintro ⟨⟨h1, h2⟩, h3, h4⟩
      exact ⟨⟨h1, h3⟩, fun y hy => by
        rcases hy with hy | hy
        · rw [hy]; exact h2.1
        · exact h4 y hy⟩
    · rintro ⟨⟨h1, h3⟩, h5⟩
      exact ⟨⟨h1, ⟨h5 x (Or.inl rfl), by simp⟩⟩, h3, fun y hy => h5 y (Or.inr hy)⟩

theorem strLtB_irrefl (s : Text) : strLtB s s = false := by
  induction s with
  | nil => rfl
  | cons a as ih =>
    rw [show strLtB (a :: as) (a :: as)
        = (if a < a then true else if a = a then strLtB as as else false) from rfl]
    rw [if_neg (lt_irrefl a), if_pos rfl]
    exact ih

theorem pairwiseB_strLt_ne (l : List Text) (h : pairwiseB strLtB l = true) :
    l.Pairwise (fun a b => a ≠ b) := by
  induction l with
  | nil => exact List.Pairwise.nil
  | cons x xs ih =>
    rw [show pairwiseB strLtB (x :: xs) = (xs.all (strLtB x) && pairwiseB strLtB xs) from rfl,
      Bool.and_eq_true] at h
    refine List.Pairwise.cons ?_ (ih h.2)
    intro b hb heq
    have hbt := List.all_eq_true.mp h.1 b hb
    rw [← heq, strLtB_irrefl] at hbt
    cases hbt

/- ### Claim C8 -/

set_option maxRecDepth 40000 in
/-- C8 counterexample: a prior state with strictly increasing dates, injected
with a record whose date already occurs (nothing in the code prevents this),
yields duplicated, non-increasing dates. -/
theorem c8_counterexample :
    pairwiseB strLtB (datesOf dupRegion) = true ∧
    datesOf (newDataRegion dupRegion dupEntry)
      = ["2026-10-12".toList, "2026-10-12".toList] ∧
    pairwiseB strLtB (datesOf (newDataRegion dupRegion dupEntry)) = false := by
  exact ⟨rfl, rfl, rfl⟩

/-- C8 (amended): provided the new record's date is strictly greater than
every existing date, injection preserves strictly increasing, duplicate-free
dates. -/
theorem c8_dates_monotone (R : Text) (e : EntryStrings)
    (hnl : ('\n' : Char) ∉ serializeEntry e) (hq : ('"' : Char) ∉ e.date)
    (hsorted : pairwiseB strLtB (datesOf R) = true)
    (hlt : ∀ x ∈ datesOf R, strLtB x e.date = true) :
    pairwiseB strLtB (datesOf (newDataRegion R e)) = true ∧
    (datesOf (newDataRegion R e)).Pairwise (fun a b => a ≠ b) := by
  have hd := datesOf_newRegion R e hnl hq
  have hpair : pairwiseB strLtB (datesOf R ++ [e.date]) = true :=
    (pairwiseB_concat_true _ _ _).mpr ⟨hsorted, hlt⟩
  constructor
  · rw [hd]; exact hpair
  · rw [hd]; exact pairwiseB_strLt_ne _ hpair

set_option maxRecDepth 40000 in
theorem c8_dates_monotone_witness :
    ((('\n' : Char) ∉ serializeEntry sampleEntry) ∧ (('"' : Char) ∉ sampleEntry.date) ∧
      pairwiseB strLtB (datesOf sampleRegion) = true ∧
      (∀ x ∈ datesOf sampleRegion, strLtB x sampleEntry.date = true)) ∧
    (pairwiseB strLtB (datesOf (newDataRegion sampleRegion sampleEntry)) = true ∧
      (datesOf (newDataRegion sampleRegion sampleEntry)).Pairwise (fun a b => a ≠ b)) :=
  ⟨⟨by decide, by decide, by decide, by decide⟩,
    c8_dates_monotone sampleRegion sampleEntry (by decide) (by decide) (by decide) (by decide)⟩

/- ### Claim C9 -/

/-- Replacing every newline by a space leaves no newline (line 116). -/
theorem replaceAll_nl_not_mem (t : Text) : ('\n' : Char) ∉ replaceAll ['\n'] [' '] t := by
  have key : ∀ n (t : Text), t.length ≤ n → ('\n' : Char) ∉ replaceAll ['\n'] [' '] t := by
    intro n
    induction n with
    | zero =>
      intro t ht
      rw [Nat.le_zero, List.length_eq_zero] at ht
      subst ht
      rw [replaceAll_nil]
      simp
    | succ n ih =>
      intro t ht
      cases t with
      | nil =>
        rw [replaceAll_nil]
        simp
      | cons c cs =>
        rw [replaceAll_cons_eq]
        by_cases hc : c = '\n'
        · subst hc
          rw [if_pos ⟨isPrefixOf_single '\n' cs, by simp⟩]
          intro hmem
          rcases List.mem_append.mp hmem with h1 | h1
          · rcases List.mem_singleton.mp h1 with h2
            cases h2
          · rw [show (['\n'] : Text).length - 1 = 0 from rfl, List.drop_zero] at h1
            exact ih cs (Nat.le_of_succ_le_succ ht) h1
        · rw [if_neg (fun hcontra => by
            have h1 := hcontra.1
            simp [List.isPrefixOf] at h1
            exact hc h1.symm)]
          intro hmem
          rcases List.mem_cons.mp hmem with h1 | h1
          · exact hc h1.symm
          · exact ih cs (Nat.le_of_succ_le_succ ht) h1
  exact key t.length t (Nat.le_refl _)

set_option maxRecDepth 40000 in
/-- C9: the narrative generator never propagates an exception (it is a total
function of its outcome) and always returns a single-line string: the three
failure categories map to three pairwise distinct placeholder strings, and a
successful response has its newlines collapsed to spaces.  With the
credential missing, the placeholder is still written into the document while
the data region is updated (the serialized new entry appears in the output). -/
theorem c9_generate_total (o : GenOutcome) :
    (('\n' : Char) ∉ generate_ai_content o) ∧
    (generate_ai_content .missingKey = missingKeyMsg ∧
      generate_ai_content .apiError = apiErrorMsg ∧
      generate_ai_content .unexpectedError = unexpectedErrorMsg ∧
      missingKeyMsg ≠ apiErrorMsg ∧ missingKeyMsg ≠ unexpectedErrorMsg ∧
      apiErrorMsg ≠ unexpectedErrorMsg) ∧
    (∀ t, generate_ai_content (.success t) = replaceAll ['\n'] [' '] t) ∧
    ((updateHtmlFile sampleState sampleEntry (generate_ai_content .missingKey)).map
      (fun out => ((findSub missingKeyMsg out).isSome
        && (findSub (serializeEntry sampleEntry) out).isSome))) = some true := by
  refine ⟨?_, ⟨rfl, rfl, rfl, by decide, by decide, by decide⟩, fun t => rfl, by decide⟩
  cases o with
  | missingKey => decide
  | apiError => decide
  | unexpectedError => decide
  | success t => exact replaceAll_nl_not_mem t

/- ### Claim C10 machinery: replacement distributing over segment boundaries -/

theorem noCrossB_iff (p X Y : Text) :
    noCrossB p X Y = true ↔
      ∀ i, i < X.length → p.isPrefixOf ((X ++ Y).drop i) = true →
        i + p.length ≤ X.length := by
  unfold noCrossB
  rw [List.all_eq_true]
  constructor
  · intro h i hi hpre
    have h2 := h i (List.mem_range.mpr hi)
    rw [hpre] at h2
    simp at h2
    exact h2
  · intro h i hi
    rw [List.mem_range] at hi
    by_cases hpre : p.isPrefixOf ((X ++ Y).drop i) = true
    · rw [hpre]
      simp [h i hi hpre]
    · rw [Bool.not_eq_true] at hpre
      rw [hpre]
      simp

theorem noCrossB_drop (p X Y : Text) (k : Nat) (hk : k ≤ X.length)
    (h : noCrossB p X Y = true) : noCrossB p (X.drop k) Y = true := by
  rw [noCrossB_iff] at h ⊢
  intro i hi hpre
  rw [List.length_drop] at hi
  have hXY : (X.drop k) ++ Y = (X ++ Y).drop k := (List.drop_append_of_le_length hk).symm
  rw [hXY, List.drop_drop] at hpre
  have h2 := h (k + i) (by omega) hpre
  rw [List.length_drop]
  omega

theorem prefix_of_append_of_le (p X Y : Text) (hpre : p.isPrefixOf (X ++ Y) = true)
    (hlen : p.length ≤ X.length) : p.isPrefixOf X = true := by
  rw [List.isPrefixOf_iff_prefix] at hpre ⊢
  have hp := List.prefix_iff_eq_take.mp hpre
  rw [List.take_append_of_le_length hlen] at hp
  rw [hp]
  exact List.take_prefix _ _

theorem replaceAll_append (p r : Text) :
    ∀ (X Y : Text), noCrossB p X Y = true →
      replaceAll p r (X ++ Y) = replaceAll p r X ++ replaceAll p r Y := by
  have key : ∀ (n : Nat) (X Y : Text), X.length ≤ n → noCrossB p X Y = true →
      replaceAll p r (X ++ Y) = replaceAll p r X ++ replaceAll p r Y := by
    intro n
    induction n with
    | zero =>
      intro X Y hX _
      rw [Nat.le_zero, List.length_eq_zero] at hX
      subst hX
      rw [replaceAll_nil]
      rfl
    | succ n ih =>
      intro X Y hX hcross
      cases X with
      | nil =>
        rw [replaceAll_nil]
        rfl
      | cons c cs =>
        rw [show ((c :: cs) ++ Y : Text) = c :: (cs ++ Y) from rfl]
        rw [replaceAll_cons_eq p r c (cs ++ Y), replaceAll_cons_eq p r c cs]
        by_cases hcond : p.isPrefixOf (c :: (cs ++ Y)) ∧ p ≠ []
        · have hplen : p.length ≤ cs.length + 1 := by
            have h0 := (noCrossB_iff p (c :: cs) Y).mp hcross 0 (by simp)
            rw [List.drop_zero] at h0
            have := h0 hcond.1
            simpa using this
          have hpX : p.isPrefixOf (c :: cs) = true :=
            prefix_of_append_of_le p (c :: cs) Y hcond.1 (by simpa using hplen)
          rw [if_pos hcond, if_pos ⟨hpX, hcond.2⟩]
          have hple : p.length - 1 ≤ cs.length := by omega
          rw [show ((cs ++ Y).drop (p.length - 1) : Text)
              = cs.drop (p.length - 1) ++ Y from List.drop_append_of_le_length hple]
          have hcross2 : noCrossB p (cs.drop (p.length - 1)) Y = true := by
            have := noCrossB_drop p (c :: cs) Y p.length (by simpa using hplen) hcross
            rw [show ((c :: cs).drop p.length : Text) = cs.drop (p.length - 1) by
              have hp1 : 1 ≤ p.length := by
                cases hp : p with
                | nil => exact absurd hp hcond.2
                | cons a as => simp
              rw [show p.length = (p.length - 1) + 1 by omega]
              rfl] at this
            exact this
          have hXlen : cs.length + 1 ≤ n + 1 := by simpa using hX
          rw [ih (cs.drop (p.length - 1)) Y (by rw [List.length_drop]; omega) hcross2]
          simp
        · have hcond2 : ¬ (p.isPrefixOf (c :: cs) ∧ p ≠ []) := by
            rintro ⟨hpX, hpne⟩
            apply hcond
            refine ⟨?_, hpne⟩
            rw [List.isPrefixOf_iff_prefix] at hpX ⊢
            exact hpX.trans (List.prefix_append _ _)
          rw [if_neg hcond, if_neg hcond2]
          have hcross2 : noCrossB p cs Y = true := by
            have := noCrossB_drop p (c :: cs) Y 1 (by simp) hcross
            simpa using this
          rw [ih cs Y (Nat.le_of_succ_le_succ hX) hcross2]
          rfl
  intro X Y h
  exact key X.length X Y (Nat.le_refl _) h

theorem replaceAll_of_findSub_none (p r s : Text) (h : findSub p s = none) :
    replaceAll p r s = s := by
  induction s with
  | nil => exact replaceAll_nil p r
  | cons c cs ih =>
    unfold findSub at h
    by_cases hpre : p.isPrefixOf (c :: cs) = true
    · rw [if_pos hpre] at h
      cases h
    · rw [if_neg hpre] at h
      rw [Option.map_eq_none'] at h
      rw [replaceAll_cons_eq, if_neg (fun hcontra => hpre hcontra.1), ih h]

theorem replaceAll_flatten (p r : Text) (parts : List (List Char))
    (h : noCrossChainB p parts = true) :
    replaceAll p r parts.flatten = (parts.map (replaceAll p r)).flatten := by
  induction parts with
  | nil =>
    rw [show (([] : List (List Char)).flatten : Text) = [] from rfl]
    rw [replaceAll_nil]
    rfl
  | cons X rest ih =>
    rw [show noCrossChainB p (X :: rest)
        = (noCrossB p X rest.flatten && noCrossChainB p rest) from rfl,
      Bool.and_eq_true] at h
    rw [List.flatten_cons, replaceAll_append p r X rest.flatten h.1, ih h.2]
    rw [List.map_cons, List.flatten_cons]

/- ### Claim C10 -/

set_option maxHeartbeats 1000000 in
/-- C10: on a document decomposed as prefix, data region, middle, narrative
region and suffix (the find hypotheses pin the four markers to those
positions, and the noCross hypothesis says no placeholder occurrence spans a
segment boundary), the update returns the same document with only the data
region rewritten, the narrative replaced, and every DATE_PLACEHOLDER
occurrence (anywhere) replaced by the new record's date; the markers, tags
and all other text are preserved byte-for-byte. -/
theorem c10_frame (A R B1 N B2 summary : Text) (e : EntryStrings)
    (h1 : findSub dataStartTag
        (A ++ dataStartTag ++ R ++ dataEndTag ++ B1 ++ aiStartTag ++ N ++ aiEndTag ++ B2)
      = some A.length)
    (h2 : findSub dataEndTag
        (A ++ dataStartTag ++ R ++ dataEndTag ++ B1 ++ aiStartTag ++ N ++ aiEndTag ++ B2)
      = some (A.length + dataStartTag.length + R.length))
    (h3 : findSub aiStartTag
        (A ++ dataStartTag ++ newDataRegion R e ++ dataEndTag ++ B1 ++ aiStartTag ++ N
          ++ aiEndTag ++ B2)
      = some (A.length + dataStartTag.length + (newDataRegion R e).length
          + dataEndTag.length + B1.length))
    (h4 : findSub aiEndTag (N ++ aiEndTag ++ B2) = some N.length)
    (h5 : noCrossChainB datePlaceholder
        [A, dataStartTag, newDataRegion R e, dataEndTag, B1, aiStartTag, pad16, summary,
          pad12, aiEndTag, B2] = true) :
    updateHtmlFile (A ++ dataStartTag ++ R ++ dataEndTag ++ B1 ++ aiStartTag ++ N
        ++ aiEndTag ++ B2) e summary
      = some (replaceAll datePlaceholder e.date A ++ dataStartTag
          ++ replaceAll datePlaceholder e.date (newDataRegion R e) ++ dataEndTag
          ++ replaceAll datePlaceholder e.date B1 ++ aiStartTag ++ pad16
          ++ replaceAll datePlaceholder e.date summary ++ pad12 ++ aiEndTag
          ++ replaceAll datePlaceholder e.date B2) := by
  have hp1 : pyFind dataStartTag
      (A ++ dataStartTag ++ R ++ dataEndTag ++ B1 ++ aiStartTag ++ N ++ aiEndTag ++ B2)
      = ((A.length : Nat) : Int) := by
    unfold pyFind
    rw [h1]
  have hp2 : pyFind dataEndTag
      (A ++ dataStartTag ++ R ++ dataEndTag ++ B1 ++ aiStartTag ++ N ++ aiEndTag ++ B2)
      = ((A.length + dataStartTag.length + R.length : Nat) : Int) := by
    unfold pyFind
    rw [h2]
  simp only [updateHtmlFile]
  rw [hp1, hp2]
  rw [if_neg (by rintro (hh | hh) <;> omega)]
  rw [Int.toNat_natCast, Int.toNat_natCast]
  have hTakeA : (A ++ dataStartTag ++ R ++ dataEndTag ++ B1 ++ aiStartTag ++ N ++ aiEndTag
      ++ B2).take A.length = A := by
    rw [show (A ++ dataStartTag ++ R ++ dataEndTag ++ B1 ++ aiStartTag ++ N ++ aiEndTag
        ++ B2 : Text)
        = A ++ (dataStartTag ++ R ++ dataEndTag ++ B1 ++ aiStartTag ++ N ++ aiEndTag ++ B2)
        by simp]
    exact List.take_left _ _
  have hBlock : ((A ++ dataStartTag ++ R ++ dataEndTag ++ B1 ++ aiStartTag ++ N ++ aiEndTag
      ++ B2).take (A.length + dataStartTag.length + R.length)).drop
        (A.length + dataStartTag.length) = R := by
    rw [show (A ++ dataStartTag ++ R ++ dataEndTag ++ B1 ++ aiStartTag ++ N ++ aiEndTag
        ++ B2 : Text)
        = (A ++ dataStartTag ++ R) ++ (dataEndTag ++ B1 ++ aiStartTag ++ N ++ aiEndTag ++ B2)
        by simp]
    rw [show A.length + dataStartTag.length + R.length
        = (A ++ dataStartTag ++ R : Text).length by simp <;> omega]
    rw [List.take_left]
    rw [show A.length + dataStartTag.length = (A ++ dataStartTag : Text).length by simp <;> omega]
    exact List.drop_left _ _
  have hDropTail : (A ++ dataStartTag ++ R ++ dataEndTag ++ B1 ++ aiStartTag ++ N ++ aiEndTag
      ++ B2).drop (A.length + dataStartTag.length + R.length + dataEndTag.length)
      = B1 ++ aiStartTag ++ N ++ aiEndTag ++ B2 := by
    rw [show (A ++ dataStartTag ++ R ++ dataEndTag ++ B1 ++ aiStartTag ++ N ++ aiEndTag
        ++ B2 : Text)
        = (A ++ dataStartTag ++ R ++ dataEndTag) ++ (B1 ++ aiStartTag ++ N ++ aiEndTag ++ B2)
        by simp]
    rw [show A.length + dataStartTag.length + R.length + dataEndTag.length
        = (A ++ dataStartTag ++ R ++ dataEndTag : Text).length by simp <;> omega]
    exact List.drop_left _ _
  rw [hTakeA, hBlock, hDropTail]
  rw [show (A ++ dataStartTag ++ newDataRegion R e ++ dataEndTag
      ++ (B1 ++ aiStartTag ++ N ++ aiEndTag ++ B2) : Text)
      = A ++ dataStartTag ++ newDataRegion R e ++ dataEndTag ++ B1 ++ aiStartTag ++ N
        ++ aiEndTag ++ B2 by simp]
  have hp3 : pyFind aiStartTag (A ++ dataStartTag ++ newDataRegion R e ++ dataEndTag ++ B1
      ++ aiStartTag ++ N ++ aiEndTag ++ B2)
      = ((A.length + dataStartTag.length + (newDataRegion R e).length + dataEndTag.length
        + B1.length : Nat) : Int) := by
    unfold pyFind
    rw [h3]
  rw [hp3]
  rw [show ((A.length + dataStartTag.length + (newDataRegion R e).length + dataEndTag.length
        + B1.length : Nat) : Int) + ((aiStartTag.length : Nat) : Int)
      = ((A.length + dataStartTag.length + (newDataRegion R e).length + dataEndTag.length
        + B1.length + aiStartTag.length : Nat) : Int) by push_cast; ring]
  rw [Int.toNat_natCast]
  have hdropAi : (A ++ dataStartTag ++ newDataRegion R e ++ dataEndTag ++ B1 ++ aiStartTag
      ++ N ++ aiEndTag ++ B2).drop (A.length + dataStartTag.length
        + (newDataRegion R e).length + dataEndTag.length + B1.length + aiStartTag.length)
      = N ++ aiEndTag ++ B2 := by
    rw [show (A ++ dataStartTag ++ newDataRegion R e ++ dataEndTag ++ B1 ++ aiStartTag ++ N
        ++ aiEndTag ++ B2 : Text)
        = (A ++ dataStartTag ++ newDataRegion R e ++ dataEndTag ++ B1 ++ aiStartTag)
          ++ (N ++ aiEndTag ++ B2) by simp]
    rw [show A.length + dataStartTag.length + (newDataRegion R e).length + dataEndTag.length
        + B1.length + aiStartTag.length
        = (A ++ dataStartTag ++ newDataRegion R e ++ dataEndTag ++ B1 ++ aiStartTag
          : Text).length by simp <;> omega]
    exact List.drop_left _ _
  have hp4 : pyFindFrom aiEndTag (A ++ dataStartTag ++ newDataRegion R e ++ dataEndTag ++ B1
      ++ aiStartTag ++ N ++ aiEndTag ++ B2) (A.length + dataStartTag.length
        + (newDataRegion R e).length + dataEndTag.length + B1.length + aiStartTag.length)
      = ((A.length + dataStartTag.length + (newDataRegion R e).length + dataEndTag.length
        + B1.length + aiStartTag.length + N.length : Nat) : Int) := by
    unfold pyFindFrom
    rw [hdropAi, h4]
  rw [hp4]
  rw [if_neg (by rintro (hh | hh) <;> omega)]
  rw [Int.toNat_natCast]
  have hTake2 : (A ++ dataStartTag ++ newDataRegion R e ++ dataEndTag ++ B1 ++ aiStartTag
      ++ N ++ aiEndTag ++ B2).take (A.length + dataStartTag.length
        + (newDataRegion R e).length + dataEndTag.length + B1.length + aiStartTag.length)
      = A ++ dataStartTag ++ newDataRegion R e ++ dataEndTag ++ B1 ++ aiStartTag := by
    rw [show (A ++ dataStartTag ++ newDataRegion R e ++ dataEndTag ++ B1 ++ aiStartTag ++ N
        ++ aiEndTag ++ B2 : Text)
        = (A ++ dataStartTag ++ newDataRegion R e ++ dataEndTag ++ B1 ++ aiStartTag)
          ++ (N ++ aiEndTag ++ B2) by simp]
    rw [show A.length + dataStartTag.length + (newDataRegion R e).length + dataEndTag.length
        + B1.length + aiStartTag.length
        = (A ++ dataStartTag ++ newDataRegion R e ++ dataEndTag ++ B1 ++ aiStartTag
          : Text).length by simp <;> omega]
    exact List.take_left _ _
  have hDrop2 : (A ++ dataStartTag ++ newDataRegion R e ++ dataEndTag ++ B1 ++ aiStartTag
      ++ N ++ aiEndTag ++ B2).drop (A.length + dataStartTag.length
        + (newDataRegion R e).length + dataEndTag.length + B1.length + aiStartTag.length
        + N.length)
      = aiEndTag ++ B2 := by
    rw [show (A ++ dataStartTag ++ newDataRegion R e ++ dataEndTag ++ B1 ++ aiStartTag ++ N
        ++ aiEndTag ++ B2 : Text)
        = (A ++ dataStartTag ++ newDataRegion R e ++ dataEndTag ++ B1 ++ aiStartTag ++ N)
          ++ (aiEndTag ++ B2) by simp]
    rw [show A.length + dataStartTag.length + (newDataRegion R e).length + dataEndTag.length
        + B1.length + aiStartTag.length + N.length
        = (A ++ dataStartTag ++ newDataRegion R e ++ dataEndTag ++ B1 ++ aiStartTag ++ N
          : Text).length by simp <;> omega]
    exact List.drop_left _ _
  rw [hTake2, hDrop2]
  rw [show ((A ++ dataStartTag ++ newDataRegion R e ++ dataEndTag ++ B1 ++ aiStartTag)
      ++ pad16 ++ summary ++ pad12 ++ (aiEndTag ++ B2) : Text)
      = ([A, dataStartTag, newDataRegion R e, dataEndTag, B1, aiStartTag, pad16, summary,
          pad12, aiEndTag, B2] : List (List Char)).flatten by
    simp [List.flatten_cons, List.flatten_nil]]
  rw [replaceAll_flatten _ _ _ h5]
  simp only [List.map_cons, List.map_nil, List.flatten_cons, List.flatten_nil,
    List.append_nil]
  rw [replaceAll_of_findSub_none _ e.date dataStartTag (by decide)]
  rw [replaceAll_of_findSub_none _ e.date dataEndTag (by decide)]
  rw [replaceAll_of_findSub_none _ e.date aiStartTag (by decide)]
  rw [replaceAll_of_findSub_none _ e.date aiEndTag (by decide)]
  rw [replaceAll_of_findSub_none _ e.date pad16 (by decide)]
  rw [replaceAll_of_findSub_none _ e.date pad12 (by decide)]
  simp [List.append_assoc]

set_option maxRecDepth 100000 in
theorem c10_frame_witness :
    (findSub dataStartTag (frameA ++ dataStartTag ++ frameR ++ dataEndTag ++ frameB1
        ++ aiStartTag ++ frameN ++ aiEndTag ++ frameB2) = some frameA.length ∧
      findSub dataEndTag (frameA ++ dataStartTag ++ frameR ++ dataEndTag ++ frameB1
        ++ aiStartTag ++ frameN ++ aiEndTag ++ frameB2)
        = some (frameA.length + dataStartTag.length + frameR.length) ∧
      findSub aiStartTag (frameA ++ dataStartTag ++ newDataRegion frameR sampleEntry
        ++ dataEndTag ++ frameB1 ++ aiStartTag ++ frameN ++ aiEndTag ++ frameB2)
        = some (frameA.length + dataStartTag.length
          + (newDataRegion frameR sampleEntry).length + dataEndTag.length
          + frameB1.length) ∧
      findSub aiEndTag (frameN ++ aiEndTag ++ frameB2) = some frameN.length ∧
      noCrossChainB datePlaceholder
        [frameA, dataStartTag, newDataRegion frameR sampleEntry, dataEndTag, frameB1,
          aiStartTag, pad16, frameSummary, pad12, aiEndTag, frameB2] = true) ∧
    updateHtmlFile (frameA ++ dataStartTag ++ frameR ++ dataEndTag ++ frameB1 ++ aiStartTag
        ++ frameN ++ aiEndTag ++ frameB2) sampleEntry frameSummary
      = some (replaceAll datePlaceholder sampleEntry.date frameA ++ dataStartTag
          ++ replaceAll datePlaceholder sampleEntry.date (newDataRegion frameR sampleEntry)
          ++ dataEndTag ++ replaceAll datePlaceholder sampleEntry.date frameB1
          ++ aiStartTag ++ pad16
          ++ replaceAll datePlaceholder sampleEntry.date frameSummary ++ pad12 ++ aiEndTag
          ++ replaceAll datePlaceholder sampleEntry.date frameB2) :=
  ⟨⟨by decide, by decide, by decide, by decide, by decide⟩,
    c10_frame frameA frameR frameB1 frameN frameB2 frameSummary sampleEntry
      (by decide) (by decide) (by decide) (by decide) (by decide)⟩
